import Mathlib

/-
Verification of the NYC restaurant-inspection loading pipeline (src/nyc.py).

The embedding models, from the source:
  * the five sqlite tables created by NYCDB._create_tables, as lists of rows,
    together with the sqlite constraint checks that govern inserts
    (CHECK ... LIKE patterns, primary keys, foreign keys with
    PRAGMA foreign_keys=ON);
  * the connection/transaction behaviour of BaseDB.run_query / run_action
    (connect on demand, rollback and close on a failed action, close without
    commit when keep_open is false);
  * the per-row load pipeline NYCDB.get_cuisine / get_action / load_viol /
    load_rest / load_insp / load_nyc_file, and the directory scan
    load_new_data;
  * the synthesized inspection times: numpy legacy RandomState seeded with the
    constant 7 (MT19937 with the classic init_genrand seeding), and
    np.random.randint realised as masked rejection sampling on the 32-bit
    output stream, exactly as in numpy/random/src.
-/

set_option maxRecDepth 10000

namespace NYCHealth

/-! ### MT19937, as seeded and consumed by numpy legacy RandomState

`np.random.seed(7)` calls mt19937_seed, the classic init_genrand: the key
array is filled by the recurrence below and the position is set to 624 so the
first output twists.  We express the in-place twist loop of mt19937_gen as a
recurrence: `mtKey seed t i` is the value of key slot `i` after `t` twists.
Slots `227 ≤ i < 623` of a twist read slot `i - 227` of the same twist (the
C loop has already updated it in place), and slot `623` reads the freshly
written slots `0` and `396`; all other reads are from the previous twist. -/

/-- Truncation to a 32-bit word, written out as the source C code does with
its 0xffffffff masks. -/
def u32 (n : Nat) : Nat := n % 4294967296

/-- One step of the init_genrand seeding recurrence used by mt19937_seed:
key[i+1] = 1812433253 * (key[i] xor (key[i] >> 30)) + (i+1)  (mod 2^32). -/
def mtSeedStep (s i : Nat) : Nat :=
  u32 (1812433253 * (Nat.xor s (s >>> 30)) + i + 1)

/-- Key slot `i` produced by mt19937_seed (init_genrand). -/
def mtInit (seed : Nat) : Nat → Nat
  | 0 => u32 seed
  | i + 1 => mtSeedStep (mtInit seed i) i

/-- The y word of the twist: top bit of `a` joined with the low 31 bits of
`b`. -/
def twistY (a b : Nat) : Nat :=
  (a &&& 2147483648) ||| (b &&& 2147483647)

/-- New key value from the y word and the slot 397 ahead (mod 624):
mt[k] = mt[k+397] xor (y >> 1) xor (y odd ? 0x9908b0df : 0). -/
def twistV (y next : Nat) : Nat :=
  Nat.xor next (Nat.xor (y >>> 1) (if y % 2 = 1 then 2567483615 else 0))

/-- Slot `i < 227` of a twist of the row `prev`: reads only the previous
row (mt[i+397] has not yet been overwritten). -/
def twistA (prev : Nat → Nat) (i : Nat) : Nat :=
  twistV (twistY (prev i) (prev (i + 1))) (prev (i + 397))

/-- Slot `227 ≤ i < 454`: mt[i + 397 - 624] = mt[i - 227] was already
overwritten by the loop, and lies in the first region. -/
def twistB (prev : Nat → Nat) (i : Nat) : Nat :=
  twistV (twistY (prev i) (prev (i + 1))) (twistA prev (i - 227))

/-- Slot `454 ≤ i < 623`: mt[i - 227] was already overwritten and lies in
the second region. -/
def twistC (prev : Nat → Nat) (i : Nat) : Nat :=
  twistV (twistY (prev i) (prev (i + 1))) (twistB prev (i - 227))

/-- The final slot 623: its y word joins old mt[623] with the freshly
written mt[0], and it reads the freshly written mt[396]. -/
def twistLast (prev : Nat → Nat) : Nat :=
  twistV (twistY (prev 623) (twistA prev 0)) (twistB prev 396)

/-- One full in-place twist of mt19937_gen, slot by slot. -/
def twistRow (prev : Nat → Nat) (i : Nat) : Nat :=
  if i < 227 then twistA prev i
  else if i < 454 then twistB prev i
  else if i < 623 then twistC prev i
  else twistLast prev

/-- Key slot `i` (0 ≤ i < 624) after `t` in-place twists of the key seeded
with `seed`; `t = 0` is the freshly seeded key. -/
def mtKey (seed : Nat) : Nat → Nat → Nat
  | 0 => fun i => mtInit seed (i % 624)
  | t + 1 => fun i => twistRow (mtKey seed t) i

/-- The tempering of mt19937_next. -/
def temper (y : Nat) : Nat :=
  let y1 := Nat.xor y (y >>> 11)
  let y2 := Nat.xor y1 ((y1 <<< 7) &&& 2636928640)
  let y3 := Nat.xor y2 ((y2 <<< 15) &&& 4022730752)
  Nat.xor y3 (y3 >>> 18)

/-- The `k`-th 32-bit output of the generator seeded with `seed`.  Seeding
leaves pos = 624, so output `k` reads slot `k % 624` of twist `k / 624 + 1`. -/
def mt32 (seed k : Nat) : Nat :=
  temper (mtKey seed (k / 624 + 1) (k % 624))

/-! ### np.random.randint on the 32-bit stream

For a range fitting 32 bits, numpy legacy randint draws
`off + buffered_bounded_masked_uint32(rng, mask)`: it repeatedly takes
`next32 & mask` until the value is at most `rng`, with
`mask = gen_mask(rng)` the smallest all-ones mask covering `rng`.
`randint(low, high)` uses off = low, rng = high - 1 - low.
The rejection loop is given fuel; for the fixed seed-7 stream consumed here
the loop always accepts within a few trials, so the fuel branch is never
reached on any input that occurs. -/

/-- gen_mask: smear the bits of `rng` down to get the smallest 2^k - 1 ≥ rng. -/
def genMask (rng : Nat) : Nat :=
  let a := rng ||| (rng >>> 1)
  let b := a ||| (a >>> 2)
  let c := b ||| (b >>> 4)
  let d := c ||| (c >>> 8)
  let e := d ||| (d >>> 16)
  e ||| (e >>> 32)

/-- The masked rejection loop of buffered_bounded_masked_uint32, reading the
stream at position `k`; returns the accepted value and the next unread
position. -/
def drawLoop (seed rng mask : Nat) : Nat → Nat → Nat × Nat
  | 0, k => (0, k + 1)
  | fuel + 1, k =>
    let v := (mt32 seed k) &&& mask
    if v ≤ rng then (v, k + 1) else drawLoop seed rng mask fuel (k + 1)

/-- Fuel for the rejection loop; never exhausted on the concrete stream. -/
def drawFuel : Nat := 1000

/-- `randint seed low high n k`: the list of `n` values of
np.random.randint(low, high, size=n) taken from stream position `k` on,
together with the position after the last trial. -/
def randint (seed low high : Nat) : Nat → Nat → List Nat × Nat
  | 0, k => ([], k)
  | n + 1, k =>
    let rng := high - 1 - low
    let p := drawLoop seed rng (genMask rng) drawFuel k
    let rest := randint seed low high n p.2
    ((low + p.1) :: rest.1, rest.2)

/-- str(x).zfill(2). -/
def pad2 (n : Nat) : String :=
  if n < 10 then "0" ++ toString n else toString n

/-- One synthesized time string: zero-padded components joined by colons. -/
def timeStr (h m s : Nat) : String :=
  pad2 h ++ ":" ++ pad2 m ++ ":" ++ pad2 s

/-- List.zipWith3 specialised to building the time strings of a file:
the source zips the h, m and s arrays row by row. -/
def zipTimes : List Nat → List Nat → List Nat → List String
  | h :: hs, m :: ms, s :: ss => timeStr h m s :: zipTimes hs ms ss
  | _, _, _ => []

/-- The synthesized inspection times of a load of `n` rows:
np.random.seed(7), then h = randint(9, 18, n), m = randint(0, 61, n),
s = randint(0, 61, n), formatted per row.  A function of `n` alone. -/
def genTimes (n : Nat) : List String :=
  let h := randint 7 9 18 n 0
  let m := randint 7 0 61 n h.2
  let s := randint 7 0 61 n m.2
  zipTimes h.1 m.1 s.1

/-! ### The store: the five tables of NYCDB._create_tables

Tables are lists of rows in rowid order; the pipeline never updates or
deletes, so a fresh AUTOINCREMENT (or implicit rowid) key is always
row-count + 1.  Integer columns are Int, text columns String, nullable
integer columns Option Int. -/

/-- A row of tRest: camis INTEGER PRIMARY KEY, five text columns, nullable
zip and phone, cuisine_id INTEGER NOT NULL REFERENCES tCuisine. -/
structure RestRow where
  camis : Int
  dba : String
  boro : String
  building : String
  street : String
  zip : Option Int
  phone : Option Int
  cuisine_id : Int
  deriving DecidableEq, Repr

/-- A row of tInsp: PRIMARY KEY (camis, insp_date, insp_time, viol_id),
with foreign keys camis → tRest, viol_id → tViol, action_id → tAction and
CHECK constraints insp_date LIKE pattern dd/dd/dddd and insp_time LIKE
pattern dd:dd:dd (each underscore of the sqlite pattern matches one
arbitrary character). -/
structure InspRow where
  camis : Int
  insp_date : String
  insp_time : String
  viol_id : String
  action_id : Int
  deriving DecidableEq, Repr

/-- The five tables.  tCuisine and tAction pair the surrogate id with the
description; tViol pairs the text code with the description. -/
structure DB where
  tCuisine : List (Int × String)
  tViol : List (String × String)
  tAction : List (Int × String)
  tRest : List RestRow
  tInsp : List InspRow
  deriving DecidableEq, Repr

/-- sqlite LIKE pattern of tInsp.insp_date: ten characters with a slash at
positions 2 and 5; every other position is a single arbitrary character. -/
def likeDate (s : String) : Bool :=
  match s.data with
  | [_, _, c, _, _, d, _, _, _, _] => c == '/' && d == '/'
  | _ => false

/-- Modelled from the spec: the date format as claim C5 words it, two
digits, slash, two digits, slash, four digits.  Stated only to compare with
`likeDate`: the CHECK constraint in the source accepts any characters at
the eight non-slash positions, digits are not required. -/
def specDigitDate (s : String) : Bool :=
  match s.data with
  | [c0, c1, c2, c3, c4, c5, c6, c7, c8, c9] =>
      c0.isDigit && c1.isDigit && c2 == '/' && c3.isDigit && c4.isDigit &&
      c5 == '/' && c6.isDigit && c7.isDigit && c8.isDigit && c9.isDigit
  | _ => false

/-- sqlite LIKE pattern of tInsp.insp_time: eight characters with a colon at
positions 2 and 5. -/
def likeTime (s : String) : Bool :=
  match s.data with
  | [_, _, c, _, _, d, _, _] => c == ':' && d == ':'
  | _ => false

/-- Foreign keys of a tInsp row, checked against the view the connection has of
the store (PRAGMA foreign_keys=ON). -/
def inspRefsOk (db : DB) (r : InspRow) : Bool :=
  db.tRest.any (fun x => decide (x.camis = r.camis)) &&
  db.tViol.any (fun x => decide (x.1 = r.viol_id)) &&
  db.tAction.any (fun x => decide (x.1 = r.action_id))

/-- Foreign key of a tRest row: its cuisine_id must resolve in tCuisine. -/
def restRefOk (db : DB) (r : RestRow) : Bool :=
  db.tCuisine.any (fun x => decide (x.1 = r.cuisine_id))

/-! ### Errors and parameter values

Python sqlite3 raises typed exceptions; `run_action` re-raises an exception
of the same type whose message is the statement text and the parameter
dict.  `ErrKind` distinguishes the constraint that failed (all of the first
three arrive as sqlite3.IntegrityError variants) and the
closed-database ProgrammingError hit by committing without an open
connection. -/

/-- A bound parameter value as sqlite sees it. -/
inductive Val where
  | int (i : Int)
  | str (s : String)
  | null
  deriving DecidableEq, Repr

/-- The kind of the underlying store failure. -/
inductive ErrKind where
  | checkFailed (tbl : String)
  | uniqueFailed (cols : String)
  | fkFailed
  | closedDb
  deriving DecidableEq, Repr

/-- The error run_action raises: the kind of the cause, plus the statement
text and parameter values carried in the message. -/
structure Err where
  kind : ErrKind
  sql : String
  params : List (String × Val)
  deriving DecidableEq, Repr

/-- Option Int column value as a bound parameter. -/
def optVal : Option Int → Val
  | none => .null
  | some i => .int i

/-! ### Write statements and their sqlite semantics -/

/-- The five INSERT statements the pipeline issues, with their bound
parameters. -/
inductive Action where
  | insertCuisine (cuisine_desc : String)
  | insertAction (action_desc : String)
  | insertViol (viol_id viol_desc : String)
  | insertRest (r : RestRow)
  | insertInsp (r : InspRow)
  deriving DecidableEq, Repr

/-- The literal SQL text of each statement (whitespace normalised). -/
def Action.sqlText : Action → String
  | .insertCuisine _ => "INSERT INTO tCuisine (cuisine_desc) VALUES (:cuisine_desc);"
  | .insertAction _ => "INSERT INTO tAction (action_desc) VALUES (:action_desc);"
  | .insertViol _ _ => "INSERT INTO tViol (viol_id, viol_desc) VALUES (:viol_id, :viol_desc);"
  | .insertRest _ =>
      "INSERT INTO tRest (camis, dba, boro, building, street, zip, phone, cuisine_id) VALUES (:camis, :dba, :boro, :building, :street, :zip, :phone, :cuisine_id);"
  | .insertInsp _ =>
      "INSERT INTO tInsp (camis, insp_date, insp_time, viol_id, action_id) VALUES (:camis, :insp_date, :insp_time, :viol_id, :action_id);"

/-- The parameter dict passed with each statement. -/
def Action.params : Action → List (String × Val)
  | .insertCuisine d => [("cuisine_desc", .str d)]
  | .insertAction d => [("action_desc", .str d)]
  | .insertViol v vd => [("viol_id", .str v), ("viol_desc", .str vd)]
  | .insertRest r =>
      [("camis", .int r.camis), ("dba", .str r.dba), ("boro", .str r.boro),
       ("building", .str r.building), ("street", .str r.street),
       ("zip", optVal r.zip), ("phone", optVal r.phone),
       ("cuisine_id", .int r.cuisine_id)]
  | .insertInsp r =>
      [("camis", .int r.camis), ("insp_date", .str r.insp_date),
       ("insp_time", .str r.insp_time), ("viol_id", .str r.viol_id),
       ("action_id", .int r.action_id)]

/-- Execute one INSERT against a store state: sqlite checks CHECK
constraints when forming the row, then primary keys, then (immediate)
foreign keys; on success it appends the row and reports lastrowid.
AUTOINCREMENT and implicit rowids are row-count + 1 since nothing is ever
deleted. -/
def Action.exec : Action → DB → Except ErrKind (DB × Int)
  | .insertCuisine d, db =>
      .ok ({db with tCuisine := db.tCuisine ++ [((db.tCuisine.length : Int) + 1, d)]},
           (db.tCuisine.length : Int) + 1)
  | .insertAction d, db =>
      .ok ({db with tAction := db.tAction ++ [((db.tAction.length : Int) + 1, d)]},
           (db.tAction.length : Int) + 1)
  | .insertViol v vd, db =>
      if db.tViol.any (fun x => decide (x.1 = v)) then
        .error (.uniqueFailed "tViol.viol_id")
      else
        .ok ({db with tViol := db.tViol ++ [(v, vd)]}, (db.tViol.length : Int) + 1)
  | .insertRest r, db =>
      if db.tRest.any (fun x => decide (x.camis = r.camis)) then
        .error (.uniqueFailed "tRest.camis")
      else if restRefOk db r then
        .ok ({db with tRest := db.tRest ++ [r]}, r.camis)
      else
        .error .fkFailed
  | .insertInsp r, db =>
      if likeDate r.insp_date = false then .error (.checkFailed "tInsp")
      else if likeTime r.insp_time = false then .error (.checkFailed "tInsp")
      else if db.tInsp.any (fun x =>
          decide (x.camis = r.camis ∧ x.insp_date = r.insp_date ∧
                  x.insp_time = r.insp_time ∧ x.viol_id = r.viol_id)) then
        .error (.uniqueFailed "tInsp")
      else if inspRefsOk db r then
        .ok ({db with tInsp := db.tInsp ++ [r]}, (db.tInsp.length : Int) + 1)
      else
        .error .fkFailed

/-! ### Connection lifecycle (BaseDB)

A session carries the committed store, the uncommitted view of the connection
`pending`, and the _connected flag.  _connect opens a fresh transaction view
on the committed state; _close drops the connection, and sqlite discards an
uncommitted transaction when its connection closes, so close resets pending
to committed. -/

/-- The state of a BaseDB object: committed store, the pending (uncommitted)
view of the open connection, and the _connected flag. -/
structure Session where
  committed : DB
  pending : DB
  connected : Bool
  deriving DecidableEq, Repr

/-- BaseDB._connect: open a connection (with foreign keys on) if none is
open; a fresh connection sees the committed state. -/
def connect (s : Session) : Session :=
  if s.connected then s else ⟨s.committed, s.committed, true⟩

/-- BaseDB._close: close the connection; an uncommitted transaction is
discarded. -/
def close (s : Session) : Session :=
  ⟨s.committed, s.committed, false⟩

/-- conn.rollback(): discard the in-flight transaction, connection stays as
it was. -/
def rollback (s : Session) : Session :=
  ⟨s.committed, s.committed, s.connected⟩

/-- conn.commit(): make the pending view durable. -/
def commitS (s : Session) : Session :=
  ⟨s.pending, s.pending, s.connected⟩

/-- The five SELECT statements the pipeline issues, with their bound
parameters. -/
inductive Query where
  | selCuisine (cuisine_desc : String)
  | selAction (action_desc : String)
  | selViol (viol_id : String)
  | selRest (camis : Int)
  | selInsp (camis : Int) (insp_date insp_time viol_id : String)
  deriving DecidableEq, Repr

/-- Run one SELECT against a store state: the WHERE filter over the table in
rowid order, projected to the selected columns. -/
def Query.exec : Query → DB → List (List Val)
  | .selCuisine d, db =>
      (db.tCuisine.filter (fun x => decide (x.2 = d))).map (fun x => [.int x.1])
  | .selAction d, db =>
      (db.tAction.filter (fun x => decide (x.2 = d))).map (fun x => [.int x.1])
  | .selViol v, db =>
      (db.tViol.filter (fun x => decide (x.1 = v))).map (fun x => [.str x.1, .str x.2])
  | .selRest c, db =>
      (db.tRest.filter (fun x => decide (x.camis = c))).map (fun x =>
        [.int x.camis, .str x.dba, .str x.boro, .str x.building, .str x.street,
         optVal x.zip, optVal x.phone, .int x.cuisine_id])
  | .selInsp c d t v, db =>
      (db.tInsp.filter (fun x =>
        decide (x.camis = c ∧ x.insp_date = d ∧ x.insp_time = t ∧ x.viol_id = v))).map
        (fun x => [.int x.camis, .str x.insp_date, .str x.insp_time, .str x.viol_id,
                   .int x.action_id])

/-- BaseDB.run_query: connect if needed, read through the connection (the
pending view), close unless keep_open. -/
def run_query (s : Session) (q : Query) (keep_open : Bool) :
    Session × List (List Val) :=
  let s1 := connect s
  let res := Query.exec q s1.pending
  (if keep_open then s1 else close s1, res)

/-- BaseDB.run_action: connect if needed, execute the statement on the
connection; on failure roll back, close, and raise an error of the same
kind carrying the statement and parameters; on success return lastrowid,
closing first (without commit) unless keep_open. -/
def run_action (s : Session) (a : Action) (keep_open : Bool) :
    Session × Except Err Int :=
  let s1 := connect s
  match Action.exec a s1.pending with
  | .error k => (close (rollback s1), .error ⟨k, a.sqlText, a.params⟩)
  | .ok (db, rid) =>
      let s2 : Session := ⟨s1.committed, db, true⟩
      (if keep_open then s2 else close s2, .ok rid)

/-! ### The load pipeline (NYCDB) -/

/-- query.values[0][0] read as an integer id. -/
def firstInt (rows : List (List Val)) : Int :=
  match rows with
  | (.int i :: _) :: _ => i
  | _ => 0

/-- NYCDB.get_cuisine: look the description up; insert it and use lastrowid
if absent, else use the first returned id. -/
def get_cuisine (s : Session) (cuisine : String) : Session × Except Err Int :=
  let q := run_query s (.selCuisine cuisine) true
  if q.2.length = 0 then
    run_action q.1 (.insertCuisine cuisine) true
  else
    (q.1, .ok (firstInt q.2))

/-- NYCDB.get_action: same get-or-create shape as get_cuisine. -/
def get_action (s : Session) (action_desc : String) : Session × Except Err Int :=
  let q := run_query s (.selAction action_desc) true
  if q.2.length = 0 then
    run_action q.1 (.insertAction action_desc) true
  else
    (q.1, .ok (firstInt q.2))

/-- NYCDB.load_viol: insert the code and description only when the code is
absent; otherwise leave the stored row untouched. -/
def load_viol (s : Session) (viol_id viol_desc : String) :
    Session × Except Err Unit :=
  let q := run_query s (.selViol viol_id) true
  if q.2.length = 0 then
    let r := run_action q.1 (.insertViol viol_id viol_desc) true
    (r.1, r.2.map (fun _ => ()))
  else
    (q.1, .ok ())

/-- NYCDB.load_rest: insert the full record only when the camis is absent. -/
def load_rest (s : Session) (camis : Int) (dba boro building street : String)
    (zip phone : Option Int) (cuisine_id : Int) : Session × Except Err Unit :=
  let q := run_query s (.selRest camis) true
  if q.2.length = 0 then
    let r := run_action q.1
      (.insertRest ⟨camis, dba, boro, building, street, zip, phone, cuisine_id⟩) true
    (r.1, r.2.map (fun _ => ()))
  else
    (q.1, .ok ())

/-- NYCDB.load_insp: the duplicate lookup matches on the four composite-key
columns only (camis, insp_date, insp_time, viol_id); insert when absent. -/
def load_insp (s : Session) (camis : Int) (insp_date insp_time viol_id : String)
    (action_id : Int) : Session × Except Err Unit :=
  let q := run_query s (.selInsp camis insp_date insp_time viol_id) true
  if q.2.length = 0 then
    let r := run_action q.1
      (.insertInsp ⟨camis, insp_date, insp_time, viol_id, action_id⟩) true
    (r.1, r.2.map (fun _ => ()))
  else
    (q.1, .ok ())

/-- One parsed data row of an intake file after the column renames of
load_nyc_file. -/
structure InputRow where
  camis : Int
  dba : String
  boro : String
  building : String
  street : String
  zipcode : Option Int
  phone : Option Int
  cuisine_desc : String
  insp_date : String
  action_desc : String
  viol_id : String
  viol_desc : String
  deriving DecidableEq, Repr

/-- The body of the row loop of load_nyc_file for one row and its
synthesized time: resolve cuisine and action, then load violation,
restaurant and inspection; a raised error propagates. -/
def loadRow (s : Session) (row : InputRow) (t : String) :
    Session × Except Err Unit :=
  let c := get_cuisine s row.cuisine_desc
  match c.2 with
  | .error e => (c.1, .error e)
  | .ok cuisine_id =>
    let a := get_action c.1 row.action_desc
    match a.2 with
    | .error e => (a.1, .error e)
    | .ok action_id =>
      let v := load_viol a.1 row.viol_id row.viol_desc
      match v.2 with
      | .error e => (v.1, .error e)
      | .ok _ =>
        let r := load_rest v.1 row.camis row.dba row.boro row.building row.street
          row.zipcode row.phone cuisine_id
        match r.2 with
        | .error e => (r.1, .error e)
        | .ok _ =>
          load_insp r.1 row.camis row.insp_date t row.viol_id action_id

/-- The row loop of load_nyc_file over the rows paired with their times. -/
def loadRows (s : Session) : List (InputRow × String) → Session × Except Err Unit
  | [] => (s, .ok ())
  | p :: rest =>
    let r := loadRow s p.1 p.2
    match r.2 with
    | .error e => (r.1, .error e)
    | .ok _ => loadRows r.1 rest

/-- NYCDB.load_nyc_file on the parsed rows of one file: synthesize the
times from the fixed seed, run the row loop, then self._conn.commit() and
self._close().  Committing without an open connection (the zero-row case:
the loop never connected) raises the closed-database error. -/
def load_nyc_file (s : Session) (rows : List InputRow) :
    Session × Except Err Unit :=
  let r := loadRows s (rows.zip (genTimes rows.length))
  match r.2 with
  | .error e => (r.1, .error e)
  | .ok _ =>
    if r.1.connected then (close (commitS r.1), .ok ())
    else (r.1, .error ⟨.closedDb, "commit", []⟩)

/-- A whole-file load against a committed store, as load_new_data invokes
it: the NYCDB object holds no open connection between files, so each load
starts unconnected.  Returns the committed store after the load, or the
propagated error (after which the committed store is unchanged). -/
def loadFile (db : DB) (rows : List InputRow) : Except Err DB :=
  match load_nyc_file ⟨db, db, false⟩ rows with
  | (s, .ok _) => .ok s.committed
  | (_, .error e) => .error e

/-! ### The directory scan (load_new_data) -/

/-- A file in the intake or archive directory: its name and its parsed
rows. -/
structure NFile where
  name : String
  rows : List InputRow
  deriving DecidableEq, Repr

/-- The two directories between which files move. -/
structure FS where
  to_load : List NFile
  loaded : List NFile
  deriving DecidableEq, Repr

/-- The glob pattern nyc*.csv over a file name. -/
def matchesPattern (name : String) : Bool :=
  name.startsWith "nyc" && name.endsWith ".csv"

/-- The scan loop of load_new_data over the globbed files, in directory
order: each file is loaded in a try block; on success it is moved to the
archive, on failure the constructed error is dropped and the file stays.
Returns the final store, the files left behind and the files moved. -/
def scanFiles (db : DB) : List NFile → DB × List NFile × List NFile
  | [] => (db, [], [])
  | f :: rest =>
    match loadFile db f.rows with
    | .ok db1 =>
        let r := scanFiles db1 rest
        (r.1, r.2.1, f :: r.2.2)
    | .error _ =>
        let r := scanFiles db rest
        (r.1, f :: r.2.1, r.2.2)

/-- NYCDB.load_new_data: glob the intake directory for nyc*.csv, load each
file, and move each successfully loaded file (name preserved) to the
archive directory.  Never raises. -/
def load_new_data (db : DB) (fs : FS) : DB × FS :=
  let files := fs.to_load.filter (fun f => matchesPattern f.name)
  let r := scanFiles db files
  (r.1, ⟨fs.to_load.filter (fun f => !matchesPattern f.name) ++ r.2.1,
         fs.loaded ++ r.2.2⟩)

/-! ### Concrete instances used by the witnesses -/

/-- A well-formed input row. -/
def wRow : InputRow :=
  ⟨1, "A", "B", "C", "D", none, none, "thai", "01/02/2003", "closed", "04L",
   "mice"⟩

/-- A second well-formed input row with entirely different content. -/
def wRow2 : InputRow :=
  ⟨2, "E", "F", "G", "H", some 10003, some 5551234, "cafe", "11/12/2013",
   "reopened", "10B", "soap"⟩

/-- The freshly bootstrapped empty store. -/
def wDb0 : DB := ⟨[], [], [], [], []⟩

/-- The store produced by loading [wRow] into the empty store; the time is
the first synthesized time of a one-row load. -/
def wDb1 : DB :=
  ⟨[(1, "thai")], [("04L", "mice")], [(1, "closed")],
   [⟨1, "A", "B", "C", "D", none, none, 1⟩],
   [⟨1, "01/02/2003", "13:25:54", "04L", 1⟩]⟩

/-- An inspection row whose date satisfies the LIKE pattern but is not made
of digits. -/
def cInsp : InspRow := ⟨1, "ab/cd/efgh", "10:00:00", "04L", 1⟩

/-- An inspection row whose date fails the LIKE pattern. -/
def cBadDate : InspRow := ⟨1, "2003-01-02", "10:00:00", "04L", 1⟩

/-- A store holding one row of each dimension and one restaurant, with no
inspection rows yet. -/
def cDb : DB :=
  ⟨[(1, "thai")], [("04L", "mice")], [(1, "closed")],
   [⟨1, "A", "B", "C", "D", none, none, 1⟩], []⟩

/-- A session over cDb with no open connection. -/
def cSession : Session := ⟨cDb, cDb, false⟩

/-- An intake file with no data rows: its load always fails (the commit is
reached with no connection ever opened). -/
def fBad : NFile := ⟨"nyc_a.csv", []⟩

/-! ### Append-only growth of tables

The pipeline only ever appends rows, so every table of a later state is the
earlier table with a suffix attached.  This is the sense in which store
state is carried across loads. -/

/-- `Grows l1 l2`: `l2` is `l1` with rows appended. -/
def Grows {α : Type} (l1 l2 : List α) : Prop := ∃ e, l2 = l1 ++ e

/-- All five tables grow. -/
def DBGrows (a b : DB) : Prop :=
  Grows a.tCuisine b.tCuisine ∧ Grows a.tViol b.tViol ∧
  Grows a.tAction b.tAction ∧ Grows a.tRest b.tRest ∧ Grows a.tInsp b.tInsp

/-- All five natural keys of a processed row resolve in the store state. -/
def keysPresent (db : DB) (row : InputRow) (t : String) : Prop :=
  Query.exec (.selCuisine row.cuisine_desc) db ≠ [] ∧
  Query.exec (.selAction row.action_desc) db ≠ [] ∧
  Query.exec (.selViol row.viol_id) db ≠ [] ∧
  Query.exec (.selRest row.camis) db ≠ [] ∧
  Query.exec (.selInsp row.camis row.insp_date t row.viol_id) db ≠ []

lemma growsRefl {α : Type} (l : List α) : Grows l l := ⟨[], by simp⟩

lemma growsTrans {α : Type} {l1 l2 l3 : List α} (h1 : Grows l1 l2)
    (h2 : Grows l2 l3) : Grows l1 l3 := by
  obtain ⟨e1, rfl⟩ := h1
  obtain ⟨e2, rfl⟩ := h2
  exact ⟨e1 ++ e2, by simp⟩

lemma growsAppend {α : Type} (l e : List α) : Grows l (l ++ e) := ⟨e, rfl⟩

lemma growsOfEq {α : Type} {l1 l2 : List α} (h : l1 = l2) : Grows l1 l2 :=
  h ▸ growsRefl l1

lemma growsFilter {α : Type} {l1 l2 : List α} (p : α → Bool) (h : Grows l1 l2) :
    Grows (l1.filter p) (l2.filter p) := by
  obtain ⟨e, rfl⟩ := h
  exact ⟨e.filter p, by simp [List.filter_append]⟩

lemma growsMap {α β : Type} {l1 l2 : List α} (f : α → β) (h : Grows l1 l2) :
    Grows (l1.map f) (l2.map f) := by
  obtain ⟨e, rfl⟩ := h
  exact ⟨e.map f, by simp⟩

lemma growsNeNil {α : Type} {l1 l2 : List α} (h : Grows l1 l2) (hne : l1 ≠ []) :
    l2 ≠ [] := by
  obtain ⟨e, rfl⟩ := h
  cases l1 with
  | nil => exact absurd rfl hne
  | cons a t => simp

lemma growsHead {α : Type} {l1 l2 : List α} (h : Grows l1 l2) (hne : l1 ≠ []) :
    l2.head? = l1.head? := by
  obtain ⟨e, rfl⟩ := h
  cases l1 with
  | nil => exact absurd rfl hne
  | cons a t => simp

lemma growsMem {α : Type} {l1 l2 : List α} (h : Grows l1 l2) {x : α}
    (hx : x ∈ l1) : x ∈ l2 := by
  obtain ⟨e, rfl⟩ := h
  exact List.mem_append_left e hx

lemma dbGrowsRefl (a : DB) : DBGrows a a :=
  ⟨growsRefl _, growsRefl _, growsRefl _, growsRefl _, growsRefl _⟩

lemma dbGrowsTrans {a b c : DB} (h1 : DBGrows a b) (h2 : DBGrows b c) :
    DBGrows a c :=
  ⟨growsTrans h1.1 h2.1, growsTrans h1.2.1 h2.2.1, growsTrans h1.2.2.1 h2.2.2.1,
   growsTrans h1.2.2.2.1 h2.2.2.2.1, growsTrans h1.2.2.2.2 h2.2.2.2.2⟩

/-- A SELECT over a grown store returns the old rows first, new ones after. -/
lemma execGrows (q : Query) {a b : DB} (h : DBGrows a b) :
    Grows (Query.exec q a) (Query.exec q b) := by
  cases q with
  | selCuisine d => exact growsMap _ (growsFilter _ h.1)
  | selAction d => exact growsMap _ (growsFilter _ h.2.2.1)
  | selViol v => exact growsMap _ (growsFilter _ h.2.1)
  | selRest c => exact growsMap _ (growsFilter _ h.2.2.2.1)
  | selInsp c d t v => exact growsMap _ (growsFilter _ h.2.2.2.2)

lemma keysPresentMono {a b : DB} (h : DBGrows a b) {row : InputRow} {t : String}
    (hk : keysPresent a row t) : keysPresent b row t :=
  ⟨growsNeNil (execGrows _ h) hk.1, growsNeNil (execGrows _ h) hk.2.1,
   growsNeNil (execGrows _ h) hk.2.2.1, growsNeNil (execGrows _ h) hk.2.2.2.1,
   growsNeNil (execGrows _ h) hk.2.2.2.2⟩

/-! ### Connection bookkeeping -/

lemma connect_committed (s : Session) : (connect s).committed = s.committed := by
  unfold connect
  split <;> rfl

lemma connect_connected (s : Session) : (connect s).connected = true := by
  unfold connect
  split
  · assumption
  · rfl

lemma connect_of_connected {s : Session} (h : s.connected = true) :
    connect s = s := by
  simp [connect, h]

lemma connect_idem (s : Session) : connect (connect s) = connect s :=
  connect_of_connected (connect_connected s)

lemma run_query_keep (s : Session) (q : Query) :
    run_query s q true = (connect s, Query.exec q (connect s).pending) := rfl

lemma run_action_okE {s : Session} {a : Action} {db : DB} {rid : Int}
    (h : Action.exec a (connect s).pending = .ok (db, rid)) :
    run_action s a true = (⟨s.committed, db, true⟩, .ok rid) := by
  simp only [run_action]
  rw [h]
  simp [connect_committed]

lemma run_action_okC {s : Session} {a : Action} {db : DB} {rid : Int}
    (h : Action.exec a (connect s).pending = .ok (db, rid)) :
    run_action (connect s) a true = (⟨s.committed, db, true⟩, .ok rid) := by
  simp only [run_action, connect_idem]
  rw [h]
  simp [connect_committed]

lemma run_action_errC {s : Session} {a : Action} {k : ErrKind}
    (h : Action.exec a (connect s).pending = .error k) :
    run_action (connect s) a true = (⟨s.committed, s.committed, false⟩,
      .error ⟨k, a.sqlText, a.params⟩) := by
  simp only [run_action, connect_idem]
  rw [h]
  simp [close, rollback, connect_committed]

lemma run_action_errE {s : Session} {a : Action} {k : ErrKind} (ko : Bool)
    (h : Action.exec a (connect s).pending = .error k) :
    run_action s a ko = (⟨s.committed, s.committed, false⟩,
      .error ⟨k, a.sqlText, a.params⟩) := by
  simp only [run_action]
  rw [h]
  simp [close, rollback, connect_committed]

/-! ### Behaviour of the five per-entity operations -/

/-- get_cuisine never raises: it returns an id whose row heads the lookup
for the description, touching no table but tCuisine, which at most grows. -/
lemma gc_spec (s : Session) (c : String) :
    ∃ s' i, get_cuisine s c = (s', .ok i) ∧
      s'.connected = true ∧ s'.committed = s.committed ∧
      s'.pending.tViol = (connect s).pending.tViol ∧
      s'.pending.tAction = (connect s).pending.tAction ∧
      s'.pending.tRest = (connect s).pending.tRest ∧
      s'.pending.tInsp = (connect s).pending.tInsp ∧
      Grows (connect s).pending.tCuisine s'.pending.tCuisine ∧
      (Query.exec (.selCuisine c) s'.pending).head? = some [.int i] := by
  rcases hf : (connect s).pending.tCuisine.filter (fun x => decide (x.2 = c)) with
    _ | ⟨x, xs⟩
  · have hexec : Action.exec (.insertCuisine c) (connect s).pending =
        .ok ({(connect s).pending with tCuisine := (connect s).pending.tCuisine ++
              [(((connect s).pending.tCuisine.length : Int) + 1, c)]},
             ((connect s).pending.tCuisine.length : Int) + 1) := rfl
    refine ⟨⟨s.committed,
        {(connect s).pending with tCuisine := (connect s).pending.tCuisine ++
          [(((connect s).pending.tCuisine.length : Int) + 1, c)]}, true⟩,
      ((connect s).pending.tCuisine.length : Int) + 1,
      ?_, rfl, rfl, rfl, rfl, rfl, rfl, growsAppend _ _, ?_⟩
    · simp only [get_cuisine, run_query_keep]
      rw [if_pos (by simp [Query.exec, hf])]
      exact run_action_okC hexec
    · simp [Query.exec, List.filter_append, hf]
  · refine ⟨connect s, x.1, ?_, connect_connected s, connect_committed s,
      rfl, rfl, rfl, rfl, growsRefl _, ?_⟩
    · simp only [get_cuisine, run_query_keep]
      rw [if_neg (by simp [Query.exec, hf])]
      simp [Query.exec, hf, firstInt]
    · simp [Query.exec, hf]

/-- get_action: same shape as get_cuisine, on tAction. -/
lemma ga_spec (s : Session) (c : String) :
    ∃ s' i, get_action s c = (s', .ok i) ∧
      s'.connected = true ∧ s'.committed = s.committed ∧
      s'.pending.tCuisine = (connect s).pending.tCuisine ∧
      s'.pending.tViol = (connect s).pending.tViol ∧
      s'.pending.tRest = (connect s).pending.tRest ∧
      s'.pending.tInsp = (connect s).pending.tInsp ∧
      Grows (connect s).pending.tAction s'.pending.tAction ∧
      (Query.exec (.selAction c) s'.pending).head? = some [.int i] := by
  rcases hf : (connect s).pending.tAction.filter (fun x => decide (x.2 = c)) with
    _ | ⟨x, xs⟩
  · have hexec : Action.exec (.insertAction c) (connect s).pending =
        .ok ({(connect s).pending with tAction := (connect s).pending.tAction ++
              [(((connect s).pending.tAction.length : Int) + 1, c)]},
             ((connect s).pending.tAction.length : Int) + 1) := rfl
    refine ⟨⟨s.committed,
        {(connect s).pending with tAction := (connect s).pending.tAction ++
          [(((connect s).pending.tAction.length : Int) + 1, c)]}, true⟩,
      ((connect s).pending.tAction.length : Int) + 1,
      ?_, rfl, rfl, rfl, rfl, rfl, rfl, growsAppend _ _, ?_⟩
    · simp only [get_action, run_query_keep]
      rw [if_pos (by simp [Query.exec, hf])]
      exact run_action_okC hexec
    · simp [Query.exec, List.filter_append, hf]
  · refine ⟨connect s, x.1, ?_, connect_connected s, connect_committed s,
      rfl, rfl, rfl, rfl, growsRefl _, ?_⟩
    · simp only [get_action, run_query_keep]
      rw [if_neg (by simp [Query.exec, hf])]
      simp [Query.exec, hf, firstInt]
    · simp [Query.exec, hf]

/-- load_viol never raises: it inserts (code, description) only when the
code is absent, touches no other table, and afterwards the code resolves.
Any code that already resolved to a single stored row keeps exactly that
row. -/
lemma lv_spec (s : Session) (v vd : String) :
    ∃ s', load_viol s v vd = (s', .ok ()) ∧
      s'.connected = true ∧ s'.committed = s.committed ∧
      s'.pending.tCuisine = (connect s).pending.tCuisine ∧
      s'.pending.tAction = (connect s).pending.tAction ∧
      s'.pending.tRest = (connect s).pending.tRest ∧
      s'.pending.tInsp = (connect s).pending.tInsp ∧
      Grows (connect s).pending.tViol s'.pending.tViol ∧
      Query.exec (.selViol v) s'.pending ≠ [] ∧
      ((connect s).pending.tViol.filter (fun x => decide (x.1 = v)) = [] →
        s'.pending.tViol = (connect s).pending.tViol ++ [(v, vd)]) ∧
      ((connect s).pending.tViol.filter (fun x => decide (x.1 = v)) ≠ [] →
        s' = connect s) ∧
      (∀ w d1, (connect s).pending.tViol.filter (fun x => decide (x.1 = w)) = [(w, d1)] →
        s'.pending.tViol.filter (fun x => decide (x.1 = w)) = [(w, d1)]) := by
  rcases hf : (connect s).pending.tViol.filter (fun x => decide (x.1 = v)) with
    _ | ⟨x, xs⟩
  · have hany : (connect s).pending.tViol.any (fun x => decide (x.1 = v)) = false := by
      rw [List.any_eq_false]
      intro x hx
      have := List.filter_eq_nil_iff.mp hf x hx
      simpa using this
    have hexec : Action.exec (.insertViol v vd) (connect s).pending =
        .ok ({(connect s).pending with tViol := (connect s).pending.tViol ++ [(v, vd)]},
             ((connect s).pending.tViol.length : Int) + 1) := by
      simp only [Action.exec, hany]
      rw [if_neg (by simp)]
    refine ⟨⟨s.committed,
        {(connect s).pending with tViol := (connect s).pending.tViol ++ [(v, vd)]},
        true⟩,
      ?_, rfl, rfl, rfl, rfl, rfl, rfl, growsAppend _ _, ?_, fun _ => rfl,
      fun hne => absurd hf hne, ?_⟩
    · simp only [load_viol, run_query_keep]
      rw [if_pos (by simp [Query.exec, hf])]
      rw [run_action_okC hexec]
      rfl
    · simp [Query.exec, List.filter_append, hf]
    · intro w d1 hw
      by_cases hvw : v = w
      · subst hvw
        rw [hw] at hf
        exact absurd hf (by simp)
      · show ((connect s).pending.tViol ++ [(v, vd)]).filter
          (fun x => decide (x.1 = w)) = [(w, d1)]
        rw [List.filter_append, hw]
        simp [hvw]
  · refine ⟨connect s, ?_, connect_connected s, connect_committed s,
      rfl, rfl, rfl, rfl, growsRefl _, ?_, ?_, fun _ => rfl, fun w d1 hw => hw⟩
    · simp only [load_viol, run_query_keep]
      rw [if_neg (by simp [Query.exec, hf])]
    · simp [Query.exec, hf]
    · intro habs
      rw [hf] at habs
      exact absurd habs (by simp)

/-- Inversion of a successful load_rest: only tRest can change, it at most
gains the one new row, and afterwards the camis resolves. -/
lemma lr_inv {s : Session} {camis : Int} {dba boro building street : String}
    {zip phone : Option Int} {cuisine_id : Int} {s' : Session} {u : Unit}
    (h : load_rest s camis dba boro building street zip phone cuisine_id =
      (s', .ok u)) :
    s'.connected = true ∧ s'.committed = s.committed ∧
    s'.pending.tCuisine = (connect s).pending.tCuisine ∧
    s'.pending.tViol = (connect s).pending.tViol ∧
    s'.pending.tAction = (connect s).pending.tAction ∧
    s'.pending.tInsp = (connect s).pending.tInsp ∧
    Grows (connect s).pending.tRest s'.pending.tRest ∧
    Query.exec (.selRest camis) s'.pending ≠ [] := by
  rcases hf : (connect s).pending.tRest.filter (fun x => decide (x.camis = camis)) with
    _ | ⟨x, xs⟩
  · simp only [load_rest, run_query_keep] at h
    rw [if_pos (by simp only [Query.exec]; rw [hf]; rfl)] at h
    rcases hexec : Action.exec
        (.insertRest ⟨camis, dba, boro, building, street, zip, phone, cuisine_id⟩)
        (connect s).pending with k | p
    · rw [run_action_errC hexec] at h
      simp [Except.map] at h
    · obtain ⟨db1, rid⟩ := p
      rw [run_action_okC hexec] at h
      simp only [Except.map] at h
      rw [Prod.mk.injEq] at h
      obtain ⟨hs', -⟩ := h
      simp only [Action.exec] at hexec
      have hany : ((connect s).pending.tRest.any fun y => decide (y.camis = camis)) = false := by
        rw [List.any_eq_false]
        intro y hy
        simpa using List.filter_eq_nil_iff.mp hf y hy
      rw [if_neg (by rw [hany]; simp)] at hexec
      by_cases hc : restRefOk (connect s).pending
          ⟨camis, dba, boro, building, street, zip, phone, cuisine_id⟩ = true
      · rw [if_pos hc] at hexec
        injection hexec with h3
        rw [Prod.mk.injEq] at h3
        obtain ⟨hdb, -⟩ := h3
        subst hdb
        subst hs'
        refine ⟨rfl, rfl, rfl, rfl, rfl, rfl, growsAppend _ _, ?_⟩
        simp only [Query.exec, List.filter_append]
        rw [hf]
        simp
      · rw [if_neg hc] at hexec
        cases hexec
  · simp only [load_rest, run_query_keep] at h
    rw [if_neg (by simp only [Query.exec]; rw [hf]; simp)] at h
    rw [Prod.mk.injEq] at h
    obtain ⟨hs', -⟩ := h
    subst hs'
    refine ⟨connect_connected s, connect_committed s, rfl, rfl, rfl, rfl,
      growsRefl _, ?_⟩
    simp only [Query.exec]
    rw [hf]
    simp

/-- Inversion of a successful load_insp: only tInsp can change, it at most
gains the one new row (carrying exactly the supplied time), and afterwards
the four-column composite key resolves. -/
lemma li_inv {s : Session} {camis : Int} {insp_date insp_time viol_id : String}
    {action_id : Int} {s' : Session} {u : Unit}
    (h : load_insp s camis insp_date insp_time viol_id action_id = (s', .ok u)) :
    s'.connected = true ∧ s'.committed = s.committed ∧
    s'.pending.tCuisine = (connect s).pending.tCuisine ∧
    s'.pending.tViol = (connect s).pending.tViol ∧
    s'.pending.tAction = (connect s).pending.tAction ∧
    s'.pending.tRest = (connect s).pending.tRest ∧
    Grows (connect s).pending.tInsp s'.pending.tInsp ∧
    (s'.pending.tInsp = (connect s).pending.tInsp ∨
      s'.pending.tInsp = (connect s).pending.tInsp ++
        [⟨camis, insp_date, insp_time, viol_id, action_id⟩]) ∧
    Query.exec (.selInsp camis insp_date insp_time viol_id) s'.pending ≠ [] := by
  rcases hf : (connect s).pending.tInsp.filter (fun x =>
      decide (x.camis = camis ∧ x.insp_date = insp_date ∧
              x.insp_time = insp_time ∧ x.viol_id = viol_id)) with _ | ⟨x, xs⟩
  · simp only [load_insp, run_query_keep] at h
    rw [if_pos (by simp only [Query.exec]; rw [hf]; rfl)] at h
    rcases hexec : Action.exec
        (.insertInsp ⟨camis, insp_date, insp_time, viol_id, action_id⟩)
        (connect s).pending with k | p
    · rw [run_action_errC hexec] at h
      simp [Except.map] at h
    · obtain ⟨db1, rid⟩ := p
      rw [run_action_okC hexec] at h
      simp only [Except.map] at h
      rw [Prod.mk.injEq] at h
      obtain ⟨hs', -⟩ := h
      simp only [Action.exec] at hexec
      by_cases hd : likeDate insp_date = false
      · rw [if_pos hd] at hexec
        cases hexec
      · rw [if_neg hd] at hexec
        by_cases ht : likeTime insp_time = false
        · rw [if_pos ht] at hexec
          cases hexec
        · rw [if_neg ht] at hexec
          have hany : ((connect s).pending.tInsp.any fun y =>
              decide (y.camis = camis ∧ y.insp_date = insp_date ∧
                      y.insp_time = insp_time ∧ y.viol_id = viol_id)) = false := by
            rw [List.any_eq_false]
            intro y hy
            have := List.filter_eq_nil_iff.mp hf y hy
            simpa using this
          rw [if_neg (by rw [hany]; simp)] at hexec
          by_cases hr : inspRefsOk (connect s).pending
              ⟨camis, insp_date, insp_time, viol_id, action_id⟩ = true
          · rw [if_pos hr] at hexec
            injection hexec with h3
            rw [Prod.mk.injEq] at h3
            obtain ⟨hdb, -⟩ := h3
            subst hdb
            subst hs'
            refine ⟨rfl, rfl, rfl, rfl, rfl, rfl, growsAppend _ _, Or.inr rfl, ?_⟩
            simp only [Query.exec, List.filter_append]
            rw [hf]
            simp
          · rw [if_neg hr] at hexec
            cases hexec
  · simp only [load_insp, run_query_keep] at h
    rw [if_neg (by simp only [Query.exec]; rw [hf]; simp)] at h
    rw [Prod.mk.injEq] at h
    obtain ⟨hs', -⟩ := h
    subst hs'
    refine ⟨connect_connected s, connect_committed s, rfl, rfl, rfl, rfl,
      growsRefl _, Or.inl rfl, ?_⟩
    simp only [Query.exec]
    rw [hf]
    simp

lemma headSomeNeNil {α : Type} {l : List α} {x : α} (h : l.head? = some x) :
    l ≠ [] := by
  cases l with
  | nil => cases h
  | cons a t => simp

/-! ### When the key is already resolvable, each operation is a pure no-op -/

lemma gc_skip {s : Session} {c : String}
    (h : Query.exec (.selCuisine c) (connect s).pending ≠ []) :
    get_cuisine s c =
      (connect s, .ok (firstInt (Query.exec (.selCuisine c) (connect s).pending))) := by
  simp only [get_cuisine, run_query_keep]
  rw [if_neg (by rw [List.length_eq_zero]; exact h)]

lemma ga_skip {s : Session} {c : String}
    (h : Query.exec (.selAction c) (connect s).pending ≠ []) :
    get_action s c =
      (connect s, .ok (firstInt (Query.exec (.selAction c) (connect s).pending))) := by
  simp only [get_action, run_query_keep]
  rw [if_neg (by rw [List.length_eq_zero]; exact h)]

lemma lv_skip {s : Session} {v vd : String}
    (h : Query.exec (.selViol v) (connect s).pending ≠ []) :
    load_viol s v vd = (connect s, .ok ()) := by
  simp only [load_viol, run_query_keep]
  rw [if_neg (by rw [List.length_eq_zero]; exact h)]

lemma lr_skip {s : Session} {camis : Int} {dba boro building street : String}
    {zip phone : Option Int} {cuisine_id : Int}
    (h : Query.exec (.selRest camis) (connect s).pending ≠ []) :
    load_rest s camis dba boro building street zip phone cuisine_id =
      (connect s, .ok ()) := by
  simp only [load_rest, run_query_keep]
  rw [if_neg (by rw [List.length_eq_zero]; exact h)]

lemma li_skip {s : Session} {camis : Int} {insp_date insp_time viol_id : String}
    {action_id : Int}
    (h : Query.exec (.selInsp camis insp_date insp_time viol_id)
      (connect s).pending ≠ []) :
    load_insp s camis insp_date insp_time viol_id action_id =
      (connect s, .ok ()) := by
  simp only [load_insp, run_query_keep]
  rw [if_neg (by rw [List.length_eq_zero]; exact h)]

/-! ### One full row of the load loop -/

/-- Inversion of a successful loadRow: the store only grows, every key of
the row resolves afterwards, any violation code stored as a unique row keeps
exactly that row, and any new inspection row carries the supplied time. -/
lemma loadRow_inv {s : Session} {row : InputRow} {t : String} {s' : Session}
    {u : Unit} (h : loadRow s row t = (s', .ok u)) :
    s'.connected = true ∧ s'.committed = s.committed ∧
    DBGrows (connect s).pending s'.pending ∧
    keysPresent s'.pending row t ∧
    (∀ w d1, (connect s).pending.tViol.filter (fun x => decide (x.1 = w)) = [(w, d1)] →
      s'.pending.tViol.filter (fun x => decide (x.1 = w)) = [(w, d1)]) ∧
    (∀ x ∈ s'.pending.tInsp, x ∈ (connect s).pending.tInsp ∨ x.insp_time = t) := by
  obtain ⟨s1, i1, he1, hc1, hm1, hv1, ha1, hr1, hi1, hg1, hh1⟩ :=
    gc_spec s row.cuisine_desc
  obtain ⟨s2, i2, he2, hc2, hm2, hcu2, hv2, hr2, hi2, hg2, hh2⟩ :=
    ga_spec s1 row.action_desc
  obtain ⟨s3, he3, hc3, hm3, hcu3, hac3, hrest3, hinsp3, hgv3, hne3, -, -, hpres3⟩ :=
    lv_spec s2 row.viol_id row.viol_desc
  have hcs1 : connect s1 = s1 := connect_of_connected hc1
  have hcs2 : connect s2 = s2 := connect_of_connected hc2
  have hcs3 : connect s3 = s3 := connect_of_connected hc3
  rw [hcs1] at hcu2 hv2 hr2 hi2 hg2
  rw [hcs2] at hcu3 hac3 hrest3 hinsp3 hgv3 hpres3
  simp only [loadRow, he1, he2, he3] at h
  rcases hlr : load_rest s3 row.camis row.dba row.boro row.building row.street
      row.zipcode row.phone i1 with ⟨s4, r4⟩
  rw [hlr] at h
  cases r4 with
  | error e => simp at h
  | ok u4 =>
    simp only [] at h
    obtain ⟨hc4, hm4, hcu4, hv4, hac4, hinsp4, hgr4, hne4⟩ := lr_inv hlr
    have hcs4 : connect s4 = s4 := connect_of_connected hc4
    rw [hcs3] at hcu4 hv4 hac4 hinsp4 hgr4
    obtain ⟨hc5, hm5, hcu5, hv5, hac5, hrest5, hgi5, heither5, hne5⟩ := li_inv h
    rw [hcs4] at hcu5 hv5 hac5 hrest5 hgi5 heither5
    have g01 : DBGrows (connect s).pending s1.pending :=
      ⟨hg1, growsOfEq hv1.symm, growsOfEq ha1.symm, growsOfEq hr1.symm,
       growsOfEq hi1.symm⟩
    have g12 : DBGrows s1.pending s2.pending :=
      ⟨growsOfEq hcu2.symm, growsOfEq hv2.symm, hg2, growsOfEq hr2.symm,
       growsOfEq hi2.symm⟩
    have g23 : DBGrows s2.pending s3.pending :=
      ⟨growsOfEq hcu3.symm, hgv3, growsOfEq hac3.symm, growsOfEq hrest3.symm,
       growsOfEq hinsp3.symm⟩
    have g34 : DBGrows s3.pending s4.pending :=
      ⟨growsOfEq hcu4.symm, growsOfEq hv4.symm, growsOfEq hac4.symm, hgr4,
       growsOfEq hinsp4.symm⟩
    have g45 : DBGrows s4.pending s'.pending :=
      ⟨growsOfEq hcu5.symm, growsOfEq hv5.symm, growsOfEq hac5.symm,
       growsOfEq hrest5.symm, hgi5⟩
    have g15 : DBGrows s1.pending s'.pending :=
      dbGrowsTrans g12 (dbGrowsTrans g23 (dbGrowsTrans g34 g45))
    have g25 : DBGrows s2.pending s'.pending :=
      dbGrowsTrans g23 (dbGrowsTrans g34 g45)
    have g35 : DBGrows s3.pending s'.pending := dbGrowsTrans g34 g45
    refine ⟨hc5, ?_, dbGrowsTrans g01 g15, ?_, ?_, ?_⟩
    · rw [hm5, hm4, hm3, hm2, hm1]
    · exact ⟨growsNeNil (execGrows _ g15) (headSomeNeNil hh1),
        growsNeNil (execGrows _ g25) (headSomeNeNil hh2),
        growsNeNil (execGrows _ g35) hne3,
        growsNeNil (execGrows _ g45) hne4, hne5⟩
    · intro w d1 hwd
      have p1 : s1.pending.tViol.filter (fun x => decide (x.1 = w)) = [(w, d1)] := by
        rw [hv1]; exact hwd
      have p2 : s2.pending.tViol.filter (fun x => decide (x.1 = w)) = [(w, d1)] := by
        rw [hv2]; exact p1
      have p3 := hpres3 w d1 p2
      have p4 : s4.pending.tViol.filter (fun x => decide (x.1 = w)) = [(w, d1)] := by
        rw [hv4]; exact p3
      rw [hv5]; exact p4
    · intro x hx
      have htr : s4.pending.tInsp = (connect s).pending.tInsp := by
        rw [hinsp4, hinsp3, hi2, hi1]
      rcases heither5 with hsame | happ
      · exact Or.inl (by rw [← htr, ← hsame]; exact hx)
      · rw [happ, htr] at hx
        rcases List.mem_append.mp hx with hold | hnew
        · exact Or.inl hold
        · right
          have : x = ⟨row.camis, row.insp_date, t, row.viol_id, i2⟩ := by
            simpa using hnew
          rw [this]

/-- When every key of the row already resolves, the whole row is processed
without touching the store and without error. -/
lemma loadRow_skip {s : Session} {row : InputRow} {t : String}
    (h : keysPresent (connect s).pending row t) :
    loadRow s row t = (connect s, .ok ()) := by
  have hidem := connect_idem s
  have h2 : Query.exec (.selAction row.action_desc)
      (connect (connect s)).pending ≠ [] := by rw [hidem]; exact h.2.1
  have h3 : Query.exec (.selViol row.viol_id)
      (connect (connect s)).pending ≠ [] := by rw [hidem]; exact h.2.2.1
  have h4 : Query.exec (.selRest row.camis)
      (connect (connect s)).pending ≠ [] := by rw [hidem]; exact h.2.2.2.1
  have h5 : Query.exec (.selInsp row.camis row.insp_date t row.viol_id)
      (connect (connect s)).pending ≠ [] := by rw [hidem]; exact h.2.2.2.2
  simp only [loadRow, gc_skip h.1, ga_skip h2, lv_skip h3, lr_skip h4,
    li_skip h5, hidem]

/-- The row loop over rows whose keys all already resolve is a no-op. -/
lemma loadRows_skip : ∀ (prs : List (InputRow × String)) (s : Session),
    prs ≠ [] → (∀ p ∈ prs, keysPresent (connect s).pending p.1 p.2) →
    loadRows s prs = (connect s, .ok ()) := by
  intro prs
  induction prs with
  | nil => exact fun s hne _ => absurd rfl hne
  | cons p rest ih =>
    intro s _ hk
    have h1 := loadRow_skip (hk p (List.mem_cons_self p rest))
    simp only [loadRows, h1]
    cases rest with
    | nil => simp [loadRows]
    | cons q qs =>
      have hrec := ih (connect s) (by simp)
        (fun r hr => by rw [connect_idem]; exact hk r (List.mem_cons_of_mem p hr))
      rw [hrec, connect_idem]

/-- Inversion of a successful run of the row loop. -/
lemma loadRows_inv : ∀ (prs : List (InputRow × String)) (s s' : Session)
    (u : Unit), loadRows s prs = (s', .ok u) →
    (prs = [] ∧ s' = s) ∨
    (s'.connected = true ∧ s'.committed = s.committed ∧
     DBGrows (connect s).pending s'.pending ∧
     (∀ p ∈ prs, keysPresent s'.pending p.1 p.2) ∧
     (∀ w d1, (connect s).pending.tViol.filter (fun x => decide (x.1 = w)) = [(w, d1)] →
       s'.pending.tViol.filter (fun x => decide (x.1 = w)) = [(w, d1)]) ∧
     (∀ x ∈ s'.pending.tInsp, x ∈ (connect s).pending.tInsp ∨
       x.insp_time ∈ prs.map (fun p => p.2))) := by
  intro prs
  induction prs with
  | nil =>
    intro s s' u h
    simp only [loadRows] at h
    rw [Prod.mk.injEq] at h
    exact Or.inl ⟨rfl, h.1.symm⟩
  | cons p rest ih =>
    intro s s' u h
    right
    simp only [loadRows] at h
    rcases hlr : loadRow s p.1 p.2 with ⟨s1, r1⟩
    rw [hlr] at h
    cases r1 with
    | error e => simp at h
    | ok u1 =>
      simp only [] at h
      obtain ⟨hc1, hm1, hg1, hk1, hv1, hins1⟩ := loadRow_inv hlr
      have hcs1 : connect s1 = s1 := connect_of_connected hc1
      rcases ih s1 s' u h with ⟨hrest, hs'⟩ | ⟨hc, hm, hg, hk, hv, hins⟩
      · subst hrest
        subst hs'
        refine ⟨hc1, hm1, hg1, ?_, hv1, ?_⟩
        · intro q hq
          rcases List.mem_cons.mp hq with hq1 | hq2
          · rw [hq1]; exact hk1
          · cases hq2
        · intro x hx
          rcases hins1 x hx with hold | htime
          · exact Or.inl hold
          · exact Or.inr (by simp [htime])
      · rw [hcs1] at hg hv hins
        refine ⟨hc, by rw [hm, hm1], dbGrowsTrans hg1 hg, ?_, ?_, ?_⟩
        · intro q hq
          rcases List.mem_cons.mp hq with hq1 | hq2
          · rw [hq1]; exact keysPresentMono hg hk1
          · exact hk q hq2
        · intro w d1 hwd
          exact hv w d1 (hv1 w d1 hwd)
        · intro x hx
          rcases hins x hx with hmid | htime
          · rcases hins1 x hmid with hold | htime1
            · exact Or.inl hold
            · exact Or.inr (by simp [htime1])
          · exact Or.inr (by
              rcases List.mem_map.mp htime with ⟨q, hq, hqt⟩
              exact List.mem_map.mpr ⟨q, List.mem_cons_of_mem p hq, hqt⟩)

/-! ### Whole-file loads -/

lemma randint_length (seed low high : Nat) :
    ∀ n k, (randint seed low high n k).1.length = n := by
  intro n
  induction n with
  | zero => intro k; rfl
  | succ m ih =>
    intro k
    simp only [randint, List.length_cons]
    rw [ih]

lemma zipTimes_length : ∀ (n : Nat) (hs ms ss : List Nat), hs.length = n →
    ms.length = n → ss.length = n → (zipTimes hs ms ss).length = n := by
  intro n
  induction n with
  | zero =>
    intro hs ms ss h1 h2 h3
    rw [List.length_eq_zero] at h1 h2 h3
    subst h1; subst h2; subst h3
    rfl
  | succ m ih =>
    intro hs ms ss h1 h2 h3
    cases hs with
    | nil => cases h1
    | cons a as =>
      cases ms with
      | nil => cases h2
      | cons b bs =>
        cases ss with
        | nil => cases h3
        | cons c cs =>
          simp only [zipTimes, List.length_cons]
          rw [ih as bs cs (by simpa using h1) (by simpa using h2) (by simpa using h3)]

lemma genTimes_length (n : Nat) : (genTimes n).length = n := by
  simp only [genTimes]
  exact zipTimes_length n _ _ _ (randint_length 7 9 18 n 0)
    (randint_length 7 0 61 n _) (randint_length 7 0 61 n _)

lemma connect_start (a b : DB) :
    connect ⟨a, b, false⟩ = (⟨a, a, true⟩ : Session) := rfl

/-- Inversion of a successful whole-file load: the rows were non-empty, the
committed store only grew, every processed key resolves in the result, any
uniquely stored violation row survives untouched, and every new inspection
row carries one of the synthesized times. -/
lemma loadFile_inv {db : DB} {rows : List InputRow} {db' : DB}
    (h : loadFile db rows = .ok db') :
    rows.zip (genTimes rows.length) ≠ [] ∧
    DBGrows db db' ∧
    (∀ p ∈ rows.zip (genTimes rows.length), keysPresent db' p.1 p.2) ∧
    (∀ w d1, db.tViol.filter (fun x => decide (x.1 = w)) = [(w, d1)] →
      db'.tViol.filter (fun x => decide (x.1 = w)) = [(w, d1)]) ∧
    (∀ x ∈ db'.tInsp, x ∈ db.tInsp ∨
      x.insp_time ∈ (rows.zip (genTimes rows.length)).map (fun p => p.2)) := by
  simp only [loadFile, load_nyc_file] at h
  rcases hrows : loadRows ⟨db, db, false⟩ (rows.zip (genTimes rows.length)) with
    ⟨s1, r1⟩
  rw [hrows] at h
  cases r1 with
  | error e => simp at h
  | ok u1 =>
    simp only [] at h
    rcases loadRows_inv _ _ _ _ hrows with ⟨hprs, hs1⟩ | ⟨hc, hm, hg, hk, hv, hins⟩
    · rw [hs1] at h
      simp at h
    · rw [if_pos hc] at h
      simp only [close, commitS] at h
      rw [Except.ok.injEq] at h
      subst h
      dsimp only at hg hk hv hins hm
      have hne : rows.zip (genTimes rows.length) ≠ [] := by
        intro habs
        rw [habs] at hrows
        simp only [loadRows] at hrows
        rw [Prod.mk.injEq] at hrows
        rw [← hrows.1] at hc
        cases hc
      exact ⟨hne, hg, hk, hv, hins⟩

/-! ### Bounds of the synthesized times -/

lemma drawLoop_le (seed rng mask : Nat) :
    ∀ fuel k, (drawLoop seed rng mask fuel k).1 ≤ rng := by
  intro fuel
  induction fuel with
  | zero => intro k; exact Nat.zero_le rng
  | succ f ih =>
    intro k
    simp only [drawLoop]
    split
    · assumption
    · exact ih (k + 1)

lemma randint_mem_le (seed low high : Nat) :
    ∀ n k x, x ∈ (randint seed low high n k).1 →
      low ≤ x ∧ x ≤ low + (high - 1 - low) := by
  intro n
  induction n with
  | zero => intro k x hx; cases hx
  | succ m ih =>
    intro k x hx
    simp only [randint] at hx
    rcases List.mem_cons.mp hx with h1 | h2
    · constructor
      · rw [h1]; exact Nat.le_add_right low _
      · rw [h1]
        exact Nat.add_le_add_left (drawLoop_le seed _ _ drawFuel k) low
    · exact ih _ x h2

lemma zipTimes_mem : ∀ (hs ms ss : List Nat) (t : String),
    t ∈ zipTimes hs ms ss →
    ∃ h ∈ hs, ∃ m ∈ ms, ∃ sec ∈ ss, t = timeStr h m sec := by
  intro hs
  induction hs with
  | nil => intro ms ss t ht; cases ht
  | cons a as ih =>
    intro ms ss t ht
    cases ms with
    | nil => cases ht
    | cons b bs =>
      cases ss with
      | nil => cases ht
      | cons c cs =>
        simp only [zipTimes] at ht
        rcases List.mem_cons.mp ht with h1 | h2
        · exact ⟨a, List.mem_cons_self a as, b, List.mem_cons_self b bs,
            c, List.mem_cons_self c cs, h1⟩
        · obtain ⟨h, hh, m, hm, sec, hsec, heq⟩ := ih bs cs t h2
          exact ⟨h, List.mem_cons_of_mem a hh, m, List.mem_cons_of_mem b hm,
            sec, List.mem_cons_of_mem c hsec, heq⟩

lemma pad2_len : ∀ x : Nat, x < 61 → (pad2 x).length = 2 := by decide

lemma firstInt_of_head {rows : List (List Val)} {i : Int}
    (h : rows.head? = some [.int i]) : firstInt rows = i := by
  cases rows with
  | nil => cases h
  | cons r rs =>
    injection h with h1
    rw [h1]
    rfl

/-- The files the scan moves to the archive all come from the scanned
list. -/
lemma scanMovedSub : ∀ (l : List NFile) (db : DB) (g : NFile),
    g ∈ (scanFiles db l).2.2 → g ∈ l := by
  intro l
  induction l with
  | nil =>
    intro db g hg
    simp only [scanFiles] at hg
    cases hg
  | cons f rest ih =>
    intro db g hg
    simp only [scanFiles] at hg
    rcases hlf : loadFile db f.rows with e | db1
    · rw [hlf] at hg
      simp only [] at hg
      exact List.mem_cons_of_mem f (ih db g hg)
    · rw [hlf] at hg
      simp only [] at hg
      rcases List.mem_cons.mp hg with h1 | h2
      · rw [h1]; exact List.mem_cons_self f rest
      · exact List.mem_cons_of_mem f (ih db1 g h2)

/-! ### The claims -/

/-- C1: loading the same file twice leaves every table exactly as after one
load: for every file and every starting store, if a load succeeded and
produced committed store db', running the same load again on db' succeeds
and returns db' unchanged — nothing is inserted into tCuisine, tAction,
tViol, tRest or tInsp and no error is raised. -/
theorem claim1_idempotent_reload (db : DB) (rows : List InputRow) (db' : DB)
    (h : loadFile db rows = .ok db') : loadFile db' rows = .ok db' := by
  obtain ⟨hne, hg, hk, hv, hins⟩ := loadFile_inv h
  have hskip := loadRows_skip (rows.zip (genTimes rows.length))
    ⟨db', db', false⟩ hne (fun p hp => hk p hp)
  simp only [loadFile, load_nyc_file, hskip]
  rfl

/-- C3: get-or-create stability.  If get_cuisine (or get_action) resolved a
description to id `i`, then after the store has grown in any way the
pipeline grows it — in particular across later loads, whose growth is the
third conjunct — the same call resolves the same description to the same
id, without error. -/
theorem claim3_get_or_create_stability (s : Session) (c : String)
    (s1 : Session) (i : Int) (s2 : Session) (db : DB) (rows : List InputRow)
    (db' : DB) :
    (get_cuisine s c = (s1, .ok i) → DBGrows s1.pending (connect s2).pending →
      get_cuisine s2 c = (connect s2, .ok i)) ∧
    (get_action s c = (s1, .ok i) → DBGrows s1.pending (connect s2).pending →
      get_action s2 c = (connect s2, .ok i)) ∧
    (loadFile db rows = .ok db' → DBGrows db db') := by
  refine ⟨?_, ?_, fun h => (loadFile_inv h).2.1⟩
  · intro h hg
    obtain ⟨s1x, ix, he, _, _, _, _, _, _, _, hh⟩ := gc_spec s c
    rw [he, Prod.mk.injEq] at h
    obtain ⟨hs1, hi⟩ := h
    injection hi with hii
    rw [← hs1] at hg
    rw [← hii]
    have hne := headSomeNeNil hh
    have hh2 : (Query.exec (.selCuisine c) (connect s2).pending).head? =
        some [.int ix] := by
      rw [growsHead (execGrows _ hg) hne]; exact hh
    rw [gc_skip (growsNeNil (execGrows _ hg) hne), firstInt_of_head hh2]
  · intro h hg
    obtain ⟨s1x, ix, he, _, _, _, _, _, _, _, hh⟩ := ga_spec s c
    rw [he, Prod.mk.injEq] at h
    obtain ⟨hs1, hi⟩ := h
    injection hi with hii
    rw [← hs1] at hg
    rw [← hii]
    have hne := headSomeNeNil hh
    have hh2 : (Query.exec (.selAction c) (connect s2).pending).head? =
        some [.int ix] := by
      rw [growsHead (execGrows _ hg) hne]; exact hh
    rw [ga_skip (growsNeNil (execGrows _ hg) hne), firstInt_of_head hh2]

/-- C4: first write wins for violation codes.  Processing a code that is
absent stores exactly (code, first description) and succeeds; processing
the same code again with a different description is a no-op without error;
and an entire later load (the third conjunct) leaves the stored row
untouched. -/
theorem claim4_first_write_wins (s : Session) (v d1 d2 : String)
    (sv : Session) (rv : Except Err Unit) (db : DB) (rows : List InputRow)
    (db' : DB) :
    ((connect s).pending.tViol.filter (fun x => decide (x.1 = v)) = [] →
      load_viol s v d1 = (sv, rv) →
      rv = .ok () ∧ sv.pending.tViol.filter (fun x => decide (x.1 = v)) = [(v, d1)]) ∧
    ((connect s).pending.tViol.filter (fun x => decide (x.1 = v)) = [(v, d1)] →
      load_viol s v d2 = (connect s, .ok ())) ∧
    (db.tViol.filter (fun x => decide (x.1 = v)) = [(v, d1)] →
      loadFile db rows = .ok db' →
      db'.tViol.filter (fun x => decide (x.1 = v)) = [(v, d1)]) := by
  refine ⟨?_, ?_, fun h1 h2 => (loadFile_inv h2).2.2.2.1 v d1 h1⟩
  · intro hemp hlv
    obtain ⟨s3, he3, _, _, _, _, _, _, _, _, hins3, _, _⟩ := lv_spec s v d1
    rw [he3, Prod.mk.injEq] at hlv
    obtain ⟨hs3, hr⟩ := hlv
    subst hs3
    refine ⟨hr.symm, ?_⟩
    rw [hins3 hemp, List.filter_append, hemp]
    simp
  · intro hone
    apply lv_skip
    simp only [Query.exec]
    intro habs
    rw [List.map_eq_nil_iff] at habs
    rw [habs] at hone
    cases hone

/-- C7: when the statement run by run_action fails with kind k, run_action
rolls the in-flight transaction back, closes the connection whatever
keep_open was, leaves the committed store untouched (no partial write), and
raises an error of the same kind k carrying the statement text and the
parameter values. -/
theorem claim7_action_failure (s : Session) (a : Action) (keep_open : Bool)
    (k : ErrKind) (h : Action.exec a (connect s).pending = .error k) :
    run_action s a keep_open =
      (⟨s.committed, s.committed, false⟩, .error ⟨k, a.sqlText, a.params⟩) :=
  run_action_errE keep_open h

/-- C9: when a tInsp row with the same (camis, insp_date, insp_time,
viol_id) already exists, load_insp is a no-op without error for every
supplied action_id — the duplicate lookup matches only the four
composite-key columns, so a later conflicting action_id never changes the
stored row. -/
theorem claim9_duplicate_key_ignores_action (s : Session) (c : Int)
    (d t v : String) (a : Int)
    (h : ∃ x ∈ (connect s).pending.tInsp, x.camis = c ∧ x.insp_date = d ∧
      x.insp_time = t ∧ x.viol_id = v) :
    load_insp s c d t v a = (connect s, .ok ()) := by
  apply li_skip
  obtain ⟨x, hx, h1, h2, h3, h4⟩ := h
  have hmem : x ∈ (connect s).pending.tInsp.filter (fun y =>
      decide (y.camis = c ∧ y.insp_date = d ∧ y.insp_time = t ∧
              y.viol_id = v)) :=
    List.mem_filter.mpr ⟨hx, by simp [h1, h2, h3, h4]⟩
  simp only [Query.exec]
  intro habs
  rw [List.map_eq_nil_iff] at habs
  rw [habs] at hmem
  cases hmem

/-- C5 counterexample: the claim demands a format failure for every
insp_date that is not digits/digits/digits; but the date ab/cd/efgh, which
contains no digit at all, satisfies the CHECK pattern, so the insert
succeeds and the row is persisted. -/
theorem claim5_counterexample :
    specDigitDate cInsp.insp_date = false ∧
    (run_action cSession (.insertInsp cInsp) true).2 = .ok 1 ∧
    (run_action cSession (.insertInsp cInsp) true).1.pending.tInsp = [cInsp] :=
  ⟨rfl, by rfl, by rfl⟩

/-- C5 (amended): writing a tInsp row whose insp_date fails the sqlite LIKE
pattern — ten characters with slashes at positions 2 and 5, any characters
elsewhere — raises the CHECK format failure, rolls back, and persists
nothing; digits are not required at the other positions. -/
theorem claim5_format_check (s : Session) (r : InspRow)
    (h : likeDate r.insp_date = false) :
    run_action s (.insertInsp r) true =
      (⟨s.committed, s.committed, false⟩,
       .error ⟨.checkFailed "tInsp", (Action.insertInsp r).sqlText,
         (Action.insertInsp r).params⟩) := by
  apply run_action_errE
  simp only [Action.exec]
  rw [if_pos h]

/-- C2: referential integrity at write time.  A tInsp insert through
run_action succeeds only when camis, viol_id and action_id all resolve in
the view of the connection at that moment, and then appends exactly the row; if
any reference is missing the write raises a store failure, rolls back, and
persists nothing.  Likewise a tRest insert and its cuisine_id. -/
theorem claim2_referential_integrity (s : Session) (r : InspRow)
    (rr : RestRow) (s' : Session) (rid : Int) :
    (run_action s (.insertInsp r) true = (s', .ok rid) →
      inspRefsOk (connect s).pending r = true ∧
      s'.pending.tInsp = (connect s).pending.tInsp ++ [r]) ∧
    (inspRefsOk (connect s).pending r = false →
      ∃ e : Err, run_action s (.insertInsp r) true =
        (⟨s.committed, s.committed, false⟩, .error e)) ∧
    (run_action s (.insertRest rr) true = (s', .ok rid) →
      restRefOk (connect s).pending rr = true ∧
      s'.pending.tRest = (connect s).pending.tRest ++ [rr]) ∧
    (restRefOk (connect s).pending rr = false →
      ∃ e : Err, run_action s (.insertRest rr) true =
        (⟨s.committed, s.committed, false⟩, .error e)) := by
  refine ⟨?_, ?_, ?_, ?_⟩
  · intro h
    rcases hexec : Action.exec (.insertInsp r) (connect s).pending with k | p
    · rw [run_action_errE true hexec] at h
      simp at h
    · obtain ⟨db1, rid1⟩ := p
      rw [run_action_okE hexec] at h
      rw [Prod.mk.injEq] at h
      obtain ⟨hs', -⟩ := h
      simp only [Action.exec] at hexec
      by_cases hd : likeDate r.insp_date = false
      · rw [if_pos hd] at hexec; cases hexec
      · rw [if_neg hd] at hexec
        by_cases ht : likeTime r.insp_time = false
        · rw [if_pos ht] at hexec; cases hexec
        · rw [if_neg ht] at hexec
          by_cases hdup : ((connect s).pending.tInsp.any fun x =>
              decide (x.camis = r.camis ∧ x.insp_date = r.insp_date ∧
                x.insp_time = r.insp_time ∧ x.viol_id = r.viol_id)) = true
          · rw [if_pos hdup] at hexec; cases hexec
          · rw [if_neg hdup] at hexec
            by_cases hr : inspRefsOk (connect s).pending r = true
            · rw [if_pos hr] at hexec
              injection hexec with h3
              rw [Prod.mk.injEq] at h3
              obtain ⟨hdb, -⟩ := h3
              subst hdb
              rw [← hs']
              exact ⟨hr, rfl⟩
            · rw [if_neg hr] at hexec; cases hexec
  · intro hrefs
    rcases hexec : Action.exec (.insertInsp r) (connect s).pending with k | p
    · exact ⟨⟨k, (Action.insertInsp r).sqlText, (Action.insertInsp r).params⟩,
        run_action_errE true hexec⟩
    · exfalso
      simp only [Action.exec] at hexec
      by_cases hd : likeDate r.insp_date = false
      · rw [if_pos hd] at hexec; cases hexec
      · rw [if_neg hd] at hexec
        by_cases ht : likeTime r.insp_time = false
        · rw [if_pos ht] at hexec; cases hexec
        · rw [if_neg ht] at hexec
          by_cases hdup : ((connect s).pending.tInsp.any fun x =>
              decide (x.camis = r.camis ∧ x.insp_date = r.insp_date ∧
                x.insp_time = r.insp_time ∧ x.viol_id = r.viol_id)) = true
          · rw [if_pos hdup] at hexec; cases hexec
          · rw [if_neg hdup] at hexec
            rw [if_neg (by rw [hrefs]; simp)] at hexec
            cases hexec
  · intro h
    rcases hexec : Action.exec (.insertRest rr) (connect s).pending with k | p
    · rw [run_action_errE true hexec] at h
      simp at h
    · obtain ⟨db1, rid1⟩ := p
      rw [run_action_okE hexec] at h
      rw [Prod.mk.injEq] at h
      obtain ⟨hs', -⟩ := h
      simp only [Action.exec] at hexec
      by_cases hdup : ((connect s).pending.tRest.any fun x =>
          decide (x.camis = rr.camis)) = true
      · rw [if_pos hdup] at hexec; cases hexec
      · rw [if_neg hdup] at hexec
        by_cases hr : restRefOk (connect s).pending rr = true
        · rw [if_pos hr] at hexec
          injection hexec with h3
          rw [Prod.mk.injEq] at h3
          obtain ⟨hdb, -⟩ := h3
          subst hdb
          rw [← hs']
          exact ⟨hr, rfl⟩
        · rw [if_neg hr] at hexec; cases hexec
  · intro hrefs
    rcases hexec : Action.exec (.insertRest rr) (connect s).pending with k | p
    · exact ⟨⟨k, (Action.insertRest rr).sqlText, (Action.insertRest rr).params⟩,
        run_action_errE true hexec⟩
    · exfalso
      simp only [Action.exec] at hexec
      by_cases hdup : ((connect s).pending.tRest.any fun x =>
          decide (x.camis = rr.camis)) = true
      · rw [if_pos hdup] at hexec; cases hexec
      · rw [if_neg hdup] at hexec
        rw [if_neg (by rw [hrefs]; simp)] at hexec
        cases hexec

/-- C6: scan isolation.  A failing file does not abort the scan: the
remaining files are scanned against the unchanged store and the failed file
stays behind; a successfully loaded file is moved, wholesale (name and
contents preserved), to the archive, and the scan continues on the updated
store.  Everything the scan archives comes from the intake directory and
matched the pattern, and non-matching intake files are left in place.  The
scan itself returns normally in both cases. -/
theorem claim6_scan_isolation (db : DB) (f : NFile) (rest : List NFile)
    (e : Err) (db1 : DB) (fs : FS) :
    (loadFile db f.rows = .error e →
      scanFiles db (f :: rest) =
        ((scanFiles db rest).1, f :: (scanFiles db rest).2.1,
         (scanFiles db rest).2.2)) ∧
    (loadFile db f.rows = .ok db1 →
      scanFiles db (f :: rest) =
        ((scanFiles db1 rest).1, (scanFiles db1 rest).2.1,
         f :: (scanFiles db1 rest).2.2)) ∧
    (∀ g ∈ (load_new_data db fs).2.loaded, g ∈ fs.loaded ∨
      (g ∈ fs.to_load ∧ matchesPattern g.name = true)) ∧
    (∀ g ∈ fs.to_load, matchesPattern g.name = false →
      g ∈ (load_new_data db fs).2.to_load) := by
  refine ⟨?_, ?_, ?_, ?_⟩
  · intro he
    simp only [scanFiles, he]
  · intro hok
    simp only [scanFiles, hok]
  · intro g hg
    simp only [load_new_data] at hg
    rcases List.mem_append.mp hg with hl | hm
    · exact Or.inl hl
    · have := scanMovedSub _ _ _ hm
      rcases List.mem_filter.mp this with ⟨hin, hmat⟩
      exact Or.inr ⟨hin, hmat⟩
  · intro g hg hnm
    simp only [load_new_data]
    apply List.mem_append_left
    exact List.mem_filter.mpr ⟨hg, by rw [hnm]; rfl⟩

/-- C8: every synthesized time is built from an hour between 9 and 17 and
minute and second between 0 and 60 (60 included), each rendered as exactly
two zero-padded characters joined by colons; and every inspection row a
successful load adds carries one of the times synthesized for that load. -/
theorem claim8_synthesized_time_range (n : Nat) (t : String) (db : DB)
    (rows : List InputRow) (db' : DB) :
    (t ∈ genTimes n → ∃ h m sec, 9 ≤ h ∧ h ≤ 17 ∧ m ≤ 60 ∧ sec ≤ 60 ∧
      t = timeStr h m sec ∧ (pad2 h).length = 2 ∧ (pad2 m).length = 2 ∧
      (pad2 sec).length = 2) ∧
    (loadFile db rows = .ok db' → ∀ x ∈ db'.tInsp, x ∈ db.tInsp ∨
      x.insp_time ∈ genTimes rows.length) := by
  constructor
  · intro ht
    simp only [genTimes] at ht
    obtain ⟨h, hh, m, hm, sec, hsec, heq⟩ := zipTimes_mem _ _ _ _ ht
    have hb := randint_mem_le 7 9 18 n 0 h hh
    have mb := randint_mem_le 7 0 61 n _ m hm
    have sb := randint_mem_le 7 0 61 n _ sec hsec
    refine ⟨h, m, sec, hb.1, by omega, by omega, by omega, heq,
      pad2_len h (by omega), pad2_len m (by omega), pad2_len sec (by omega)⟩
  · intro h x hx
    rcases (loadFile_inv h).2.2.2.2 x hx with hold | htime
    · exact Or.inl hold
    · right
      rcases List.mem_map.mp htime with ⟨p, hp, hpt⟩
      rw [← hpt]
      exact (List.of_mem_zip hp).2

/-- C10: the synthesized time sequence of a load is a function of the row
count alone — two files with equally many rows are assigned identical time
strings row for row, whatever their contents — while files of different
row counts can give the same row position different times: the first row
of a one-row file and of a two-row file receive different times, because
the fixed seed restarts each load and all hour draws precede the minute
draws. -/
theorem claim10_times_function_of_rowcount (f g : List InputRow) :
    (f.length = g.length →
      (f.zip (genTimes f.length)).map Prod.snd =
        (g.zip (genTimes g.length)).map Prod.snd) ∧
    (genTimes 1).head? ≠ (genTimes 2).head? := by
  constructor
  · intro h
    rw [List.map_snd_zip f _ (by rw [genTimes_length]),
        List.map_snd_zip g _ (by rw [genTimes_length]), h]
  · decide

/-! ### Concrete witnesses for the claims with hypotheses -/

theorem claim1_witness : loadFile wDb1 [wRow] = .ok wDb1 :=
  claim1_idempotent_reload wDb0 [wRow] wDb1 (by rfl)

theorem claim2_witness :
    ∃ e : Err, run_action ⟨wDb0, wDb0, false⟩
      (.insertInsp ⟨1, "01/02/2003", "10:00:00", "04L", 1⟩) true =
      (⟨wDb0, wDb0, false⟩, .error e) :=
  (claim2_referential_integrity ⟨wDb0, wDb0, false⟩
    ⟨1, "01/02/2003", "10:00:00", "04L", 1⟩
    ⟨1, "A", "B", "C", "D", none, none, 1⟩ ⟨wDb0, wDb0, false⟩ 0).2.1 (by rfl)

theorem claim3_witness :
    get_cuisine ⟨wDb1, wDb1, true⟩ "thai" =
      (connect ⟨wDb1, wDb1, true⟩, .ok 1) :=
  (claim3_get_or_create_stability ⟨wDb1, wDb1, false⟩ "thai"
    ⟨wDb1, wDb1, true⟩ 1 ⟨wDb1, wDb1, true⟩ wDb0 [] wDb0).1 (by rfl)
    (dbGrowsRefl wDb1)

theorem claim4_witness :
    load_viol ⟨wDb1, wDb1, true⟩ "04L" "soap" =
      (connect ⟨wDb1, wDb1, true⟩, .ok ()) :=
  (claim4_first_write_wins ⟨wDb1, wDb1, true⟩ "04L" "mice" "soap"
    ⟨wDb0, wDb0, false⟩ (.ok ()) wDb0 [] wDb0).2.1 (by rfl)

theorem claim5_witness :
    run_action cSession (.insertInsp cBadDate) true =
      (⟨cDb, cDb, false⟩, .error ⟨.checkFailed "tInsp",
        (Action.insertInsp cBadDate).sqlText,
        (Action.insertInsp cBadDate).params⟩) :=
  claim5_format_check cSession cBadDate (by rfl)

theorem claim6_witness :
    scanFiles wDb0 [fBad] = ((scanFiles wDb0 []).1,
      fBad :: (scanFiles wDb0 []).2.1, (scanFiles wDb0 []).2.2) :=
  (claim6_scan_isolation wDb0 fBad [] ⟨.closedDb, "commit", []⟩ wDb0
    ⟨[], []⟩).1 (by rfl)

theorem claim7_witness :
    run_action ⟨wDb1, wDb1, false⟩ (.insertViol "04L" "zzz") true =
      (⟨wDb1, wDb1, false⟩, .error ⟨.uniqueFailed "tViol.viol_id",
        (Action.insertViol "04L" "zzz").sqlText,
        (Action.insertViol "04L" "zzz").params⟩) :=
  claim7_action_failure ⟨wDb1, wDb1, false⟩ (.insertViol "04L" "zzz") true
    (.uniqueFailed "tViol.viol_id") (by rfl)

theorem claim8_witness :
    ∃ h m sec, 9 ≤ h ∧ h ≤ 17 ∧ m ≤ 60 ∧ sec ≤ 60 ∧
      "13:25:54" = timeStr h m sec ∧ (pad2 h).length = 2 ∧
      (pad2 m).length = 2 ∧ (pad2 sec).length = 2 :=
  (claim8_synthesized_time_range 1 "13:25:54" wDb0 [] wDb0).1 (by decide)

theorem claim9_witness :
    load_insp ⟨wDb1, wDb1, true⟩ 1 "01/02/2003" "13:25:54" "04L" 7 =
      (connect ⟨wDb1, wDb1, true⟩, .ok ()) :=
  claim9_duplicate_key_ignores_action ⟨wDb1, wDb1, true⟩ 1 "01/02/2003"
    "13:25:54" "04L" 7
    ⟨⟨1, "01/02/2003", "13:25:54", "04L", 1⟩, by decide, by decide⟩

theorem claim10_witness :
    ([wRow].zip (genTimes [wRow].length)).map Prod.snd =
      ([wRow2].zip (genTimes [wRow2].length)).map Prod.snd :=
  (claim10_times_function_of_rowcount [wRow] [wRow2]).1 rfl

end NYCHealth
